import Mathlib

/-!
Shallow embedding of the Datathon credit-portfolio analytics notebook
(`framework.ipynb`): ingestion with a date-window filter, concatenation of
the transaction fact tables, the left join onto account attributes, the
rams snapshot deduplication, the feature builder, the spending-tier cut,
the risk-label construction, and the seasonal auto-arima step.
Dates are encoded as `yyyymmdd` naturals; monetary amounts and scores as
rationals.
-/

namespace Datathon

/-- Row of a transaction fact table (`transaction_fact` / `wrld_stor_tran_fact`). -/
structure TxnRow where
  current_account_nbr : Nat
  transaction_date : Nat
  transaction_amt : Rat
  deriving DecidableEq

/-- Row of `account_dim` (the columns the notebook touches). -/
structure AccountRow where
  current_account_nbr : Nat
  client_id : Nat
  open_date : Nat
  date_in_collection : Option Nat
  deriving DecidableEq

/-- Row of `rams_batch_cur` (the columns the notebook touches). -/
structure RamsRow where
  cu_account_nbr : Nat
  cu_processing_date : Nat
  cu_crd_line : Rat
  cu_crd_bureau_scr : Rat
  cu_bhv_scr : Rat
  ca_avg_utilz_lst_3_mnths : Rat
  ca_nsf_count_lst_12_months : Rat
  ca_max_dlq_lst_6_mnths : Rat
  deriving DecidableEq

/-- Row of `fraud_claim_case` (the column the notebook uses for labelling). -/
structure FraudCaseRow where
  current_account_nbr : Nat
  reported_date : Nat
  deriving DecidableEq

/-- The mask `(chunk["transaction_date"] >= start) & (chunk["transaction_date"] <= end)`:
a closed date-range test. -/
def inDateWindow (startD endD : Nat) (t : TxnRow) : Bool :=
  decide (startD ≤ t.transaction_date) && decide (t.transaction_date ≤ endD)

/-- The per-chunk filter `chunk.loc[mask]` applied during chunked CSV reading. -/
def filterChunk (startD endD : Nat) (chunk : List TxnRow) : List TxnRow :=
  chunk.filter (inDateWindow startD endD)

/-- The statement `pd.concat(transactions_list, ignore_index=True)`: plain
concatenation of a list of tables with identical schema. -/
def concatTables (tables : List (List TxnRow)) : List TxnRow :=
  tables.flatten

/-- The ingestion loop of the notebook: every chunk of every transaction file is
filtered to the configured window and the filtered chunks are concatenated. -/
def loadTransactions (startD endD : Nat) (chunks : List (List TxnRow)) : List TxnRow :=
  concatTables (chunks.map (filterChunk startD endD))

/-- Result row of the left merge of transactions with account attributes:
the original transaction plus the matched account row, if any. -/
structure MergedTxnRow where
  txn : TxnRow
  acct : Option AccountRow
  deriving DecidableEq

/-- The rows of the account table whose key matches a given transaction. -/
def matchingAccounts (accountsTbl : List AccountRow) (t : TxnRow) : List AccountRow :=
  accountsTbl.filter (fun a => a.current_account_nbr == t.current_account_nbr)

/-- The statement `transactions.merge(accounts[[...]], on="current_account_nbr", how="left")`:
each transaction row is paired with every matching account row, and with `none`
when no account matches. -/
def leftMergeTxnAccounts (txns : List TxnRow) (accountsTbl : List AccountRow) :
    List MergedTxnRow :=
  txns.flatMap (fun t =>
    let ms := matchingAccounts accountsTbl t
    if ms.isEmpty then [⟨t, none⟩] else ms.map (fun a => ⟨t, some a⟩))

/-- Sample transaction used to instantiate the ingestion theorems. -/
def txnDemo : TxnRow := ⟨1, 20240601, 10⟩

/-- Sample account row used to instantiate the join theorems. -/
def acctDemo : AccountRow := ⟨1, 9, 20240101, none⟩

/-- The three ordinal spending tiers of the segmentation step. -/
inductive SpendTier where
  | Low
  | Medium
  | High
  deriving DecidableEq

/-- The statement `pd.cut(x, bins=[0, t1, t2, inf], labels=["Low","Medium","High"])` with
the default right-closed intervals: `(0, t1]`, `(t1, t2]`, `(t2, inf)`; a value outside
every bin gets no label. -/
def cutTier (t1 t2 : Rat) (x : Rat) : Option SpendTier :=
  if 0 < x ∧ x ≤ t1 then some SpendTier.Low
  else if t1 < x ∧ x ≤ t2 then some SpendTier.Medium
  else if t2 < x then some SpendTier.High
  else none

/-- The notebook's `spending_tier` column rule with its bins `[0, 1000, 10000, inf]`. -/
def spending_tier (x : Rat) : Option SpendTier := cutTier 1000 10000 x

/-- The `spending_tier` column over the list of predicted values. -/
def tierColumn (preds : List Rat) : List (Option SpendTier) :=
  preds.map spending_tier

/-- The statement `predictions_df["spending_tier"].value_counts()`: per-tier counts, with
unlabelled (NaN) entries excluded, as `value_counts` drops them by default. -/
def tier_counts (preds : List Rat) (t : SpendTier) : Nat :=
  ((tierColumn preds).filterMap id).count t

/-- Account row after the rams enrichment merge: `account_dim` columns plus the latest
snapshot columns, which are missing when the account has no snapshot row. -/
structure EnrichedAccountRow where
  current_account_nbr : Nat
  client_id : Nat
  open_date : Nat
  date_in_collection : Option Nat
  cu_crd_line : Option Rat
  cu_crd_bureau_scr : Option Rat
  cu_bhv_scr : Option Rat
  ca_avg_utilz_lst_3_mnths : Option Rat
  ca_nsf_count_lst_12_months : Option Rat
  ca_max_dlq_lst_6_mnths : Option Rat
  deriving DecidableEq

/-- The statement `fraud_accounts = set(fraud_cases["current_account_nbr"])` as a list of keys. -/
def fraudAccountsOf (fraudCases : List FraudCaseRow) : List Nat :=
  fraudCases.map (fun c => c.current_account_nbr)

/-- The statement `accounts[accounts["date_in_collection"].notna()]["current_account_nbr"]`. -/
def collectionsAccountsOf (accountsTbl : List EnrichedAccountRow) : List Nat :=
  (accountsTbl.filter (fun a => a.date_in_collection.isSome)).map
    (fun a => a.current_account_nbr)

/-- The `risk_labels` series at one index entry: initialized to 0, then set to 1 for
fraud accounts, then set to 1 for collections accounts, in the order of the notebook. -/
def riskLabelOf (fraudAccounts : List Nat) (collectionsAccounts : List Nat) (k : Nat) : Nat :=
  let l0 := 0
  let l1 := if k ∈ fraudAccounts then 1 else l0
  let l2 := if k ∈ collectionsAccounts then 1 else l1
  l2

/-- The statement `risk_data = risk_features.join(risk_labels, how="inner")`: the risk
features are indexed by the account table keys and the labels share that index, so the
join pairs each account row with its label. -/
def riskData (accountsTbl : List EnrichedAccountRow) (fraudCases : List FraudCaseRow) :
    List (EnrichedAccountRow × Nat) :=
  accountsTbl.map (fun a =>
    (a, riskLabelOf (fraudAccountsOf fraudCases) (collectionsAccountsOf accountsTbl)
          a.current_account_nbr))

/-- Sample enriched account used to instantiate the risk-label theorem. -/
def enrichedDemo : EnrichedAccountRow :=
  ⟨7, 9, 20240101, none, none, none, none, none, none, none⟩

/-- Sample fraud case used to instantiate the risk-label theorem. -/
def fraudDemo : FraudCaseRow := ⟨7, 20240901⟩

/-- The lexicographic order of
`rams.sort_values(["cu_account_nbr", "cu_processing_date"], ascending=[True, False])`:
account number ascending, processing date descending. -/
def ramsOrd (a b : RamsRow) : Prop :=
  a.cu_account_nbr < b.cu_account_nbr ∨
    (a.cu_account_nbr = b.cu_account_nbr ∧ b.cu_processing_date ≤ a.cu_processing_date)

instance : DecidableRel ramsOrd := fun a b => by unfold ramsOrd; infer_instance

instance : IsTotal RamsRow ramsOrd :=
  ⟨by intro a b; unfold ramsOrd; omega⟩

instance : IsTrans RamsRow ramsOrd :=
  ⟨by intro a b c; unfold ramsOrd; omega⟩

/-- The sort itself; `sort_values` over several columns runs a stable lexicographic sort,
embedded here as stable insertion sort by `ramsOrd`. -/
def sortRams (rs : List RamsRow) : List RamsRow :=
  List.insertionSort ramsOrd rs

/-- The statement `drop_duplicates(subset="cu_account_nbr", keep="first")`: walk the rows
in order and keep each row whose account number has not been seen yet. -/
def dropDupKeepFirst : List RamsRow → List Nat → List RamsRow
  | [], _ => []
  | r :: rest, seen =>
    if r.cu_account_nbr ∈ seen then dropDupKeepFirst rest seen
    else r :: dropDupKeepFirst rest (r.cu_account_nbr :: seen)

/-- The notebook's `rams_latest`: sort by account ascending and processing date
descending, then keep the first row per account. -/
def ramsLatest (rs : List RamsRow) : List RamsRow :=
  dropDupKeepFirst (sortRams rs) []

/-- The statement
`accounts.merge(rams_latest.rename(columns=...), on="current_account_nbr", how="left")`:
after the rename of `cu_account_nbr`, each account row picks up the columns of its
deduplicated snapshot row, or missing values when it has none. -/
def enrichAccounts (accountsTbl : List AccountRow) (ramsTbl : List RamsRow) :
    List EnrichedAccountRow :=
  accountsTbl.map (fun a =>
    match (ramsLatest ramsTbl).find? (fun r => r.cu_account_nbr == a.current_account_nbr) with
    | none => ⟨a.current_account_nbr, a.client_id, a.open_date, a.date_in_collection,
        none, none, none, none, none, none⟩
    | some r => ⟨a.current_account_nbr, a.client_id, a.open_date, a.date_in_collection,
        some r.cu_crd_line, some r.cu_crd_bureau_scr, some r.cu_bhv_scr,
        some r.ca_avg_utilz_lst_3_mnths, some r.ca_nsf_count_lst_12_months,
        some r.ca_max_dlq_lst_6_mnths⟩)

/-- The statement `transactions.loc[mask].groupby("current_account_nbr")["transaction_amt"].sum()`:
one (account, summed amount) pair per account appearing among the rows of the window. -/
def windowSpendByAccount (startD endD : Nat) (txns : List TxnRow) : List (Nat × Rat) :=
  let inWin := txns.filter (inDateWindow startD endD)
  ((inWin.map (fun t => t.current_account_nbr)).dedup).map
    (fun k => (k, ((inWin.filter (fun t => t.current_account_nbr == k)).map
      (fun t => t.transaction_amt)).sum))

/-- A row of `features_df`: the two window sums plus the credit attributes after the
zero fill. -/
structure FeatureRow where
  current_account_nbr : Nat
  spend_MaySep_2024 : Rat
  spend_Q4_2024 : Rat
  cu_crd_line : Rat
  cu_crd_bureau_scr : Rat
  deriving DecidableEq

/-- The notebook's `features_df`: the May–Sep 2024 spend series joined to the Q4 2024
spend series with `how="inner"` (so only accounts grouped in both windows get a row),
then joined `how="left"` to the account credit attributes, and `fillna(0)` on the
result. -/
def featuresDf (txns : List TxnRow) (accountsTbl : List EnrichedAccountRow) :
    List FeatureRow :=
  let maySep := windowSpendByAccount 20240501 20240930 txns
  let q4 := windowSpendByAccount 20241001 20241231 txns
  (maySep.filter (fun p => (q4.map Prod.fst).contains p.1)).map (fun p =>
    { current_account_nbr := p.1
      spend_MaySep_2024 := p.2
      spend_Q4_2024 := ((q4.find? (fun q => q.1 == p.1)).map Prod.snd).getD 0
      cu_crd_line :=
        ((accountsTbl.find? (fun a => a.current_account_nbr == p.1)).bind
          (fun a => a.cu_crd_line)).getD 0
      cu_crd_bureau_scr :=
        ((accountsTbl.find? (fun a => a.current_account_nbr == p.1)).bind
          (fun a => a.cu_crd_bureau_scr)).getD 0 })

/-- First-order seasonal difference with period `m`, as the seasonal test applies it. -/
def seasonalDiff (m : Nat) (xs : List Rat) : List Rat :=
  (List.range (xs.length - m)).map (fun i => xs.getD (i + m) 0 - xs.getD i 0)

/-- Outcome of a successful arima fit: the number of observations it was fitted on. -/
structure ArimaFit where
  nobs : Nat
  deriving DecidableEq

/-- Diagnostic raised by the seasonal search on a too-short series. -/
def seasonalErrMsg : String :=
  "There are no more samples after a first-order seasonal differencing."

/-- The call `pm.auto_arima(monthly_spend, seasonal=True, m=12, ...)` as the notebook
exercised it: the seasonal test first applies a first-order seasonal difference and
raises a data-insufficiency error when no samples remain, which is exactly the
ValueError the saved run shows. -/
def auto_arima (m : Nat) (xs : List Rat) : Except String ArimaFit :=
  if (seasonalDiff m xs).length = 0 then Except.error seasonalErrMsg
  else Except.ok ⟨xs.length⟩

/-- The seasonal forecasting cell of the notebook: it calls `auto_arima` with period 12
directly, with no series-length check before the call and no exception handler around
it, so an error propagates instead of reaching any non-seasonal fallback. -/
def seasonalForecastStep (monthly_spend : List Rat) : Except String ArimaFit :=
  auto_arima 12 monthly_spend

/-- The run's aggregate monthly spend series has 11 points, 2024-05 through 2025-03. -/
def monthlySpendDemo : List Rat := [14, 15, 13, 16, 14, 15, 18, 20, 12, 11, 13]

/-- The fixed `random_state=42` the notebook passes to `train_test_split` and
`RandomForestRegressor`. -/
def notebookRandomState : Option Nat := some 42

/-- The seed a stochastic estimator actually consumes: the fixed `random_state` when one
is passed, otherwise ambient entropy. -/
def effectiveSeed (randomState : Option Nat) (entropy : Nat) : Nat :=
  randomState.getD entropy

/-- The frozen input tables of one run. -/
structure PipelineInputs where
  txnChunks : List (List TxnRow)
  accountDim : List AccountRow
  ramsTbl : List RamsRow
  fraudCases : List FraudCaseRow
  deriving DecidableEq

/-- The derived artifacts the claims compare across runs. -/
structure PipelineOutputs where
  features : List FeatureRow
  tiers : List (Option SpendTier)
  riskLabeled : List (EnrichedAccountRow × Nat)
  deriving DecidableEq

/-- One batch run of the notebook over frozen inputs: ingestion, snapshot deduplication
and account enrichment, feature building, the seeded estimator (whose training is an
arbitrary deterministic function of its seed and the feature table), tiering of its
predictions, and the risk labelling. `entropy` stands for the ambient randomness an
unseeded estimator would consume; the notebook pins `random_state` to 42. -/
def runPipeline (train : Nat → List FeatureRow → (FeatureRow → Rat))
    (inp : PipelineInputs) (entropy : Nat) : PipelineOutputs :=
  let txns := loadTransactions 20240501 20250331 inp.txnChunks
  let accountsE := enrichAccounts inp.accountDim inp.ramsTbl
  let feats := featuresDf txns accountsE
  let model := train (effectiveSeed notebookRandomState entropy) feats
  let preds := feats.map model
  { features := feats
    tiers := tierColumn preds
    riskLabeled := riskData accountsE inp.fraudCases }

/-- Snapshot rows used to instantiate the deduplication theorem: account 1 has two rows
with processing dates 5 and 7, account 2 has one row. -/
def ramsRowEarly : RamsRow := ⟨1, 5, 100, 0, 0, 0, 0, 0⟩

/-- The later snapshot row of account 1. -/
def ramsRowLate : RamsRow := ⟨1, 7, 200, 0, 0, 0, 0, 0⟩

/-- The only snapshot row of account 2. -/
def ramsRowOther : RamsRow := ⟨2, 3, 300, 0, 0, 0, 0, 0⟩

/-- A concrete snapshot table with a duplicate account. -/
def ramsDemo : List RamsRow := [ramsRowEarly, ramsRowLate, ramsRowOther]

/-- Account row used by the feature-builder counterexample: present in the account table
with credit attributes, but with no transaction in the feature window. -/
def acct1Demo : EnrichedAccountRow :=
  ⟨1, 9, 20240101, none, some 5000, some 700, none, none, none, none⟩

/-- Transactions used by the feature-builder counterexample: account 2 transacts in both
windows, account 1 only before the feature window opens. -/
def txnsDemo : List TxnRow := [⟨2, 20240601, 5⟩, ⟨2, 20241101, 7⟩, ⟨1, 20240401, 3⟩]

theorem mem_loadTransactions_inWindow {startD endD : Nat} {chunks : List (List TxnRow)}
    {t : TxnRow} (ht : t ∈ loadTransactions startD endD chunks) :
    inDateWindow startD endD t = true := by
  simp only [loadTransactions, concatTables, List.mem_flatten, List.mem_map] at ht
  obtain ⟨tb, ⟨c, _, rfl⟩, htb⟩ := ht
  exact (List.mem_filter.mp htb).2

theorem loadTransactions_eq_filter_concat (startD endD : Nat) (chunks : List (List TxnRow)) :
    loadTransactions startD endD chunks = (concatTables chunks).filter (inDateWindow startD endD) := by
  simp only [loadTransactions, concatTables, filterChunk]
  induction chunks with
  | nil => rfl
  | cons c cs ih => simp [List.filter_append, ih, filterChunk]

theorem length_matchingAccounts_le_one {accountsTbl : List AccountRow}
    (h : (accountsTbl.map (fun a => a.current_account_nbr)).Nodup) (t : TxnRow) :
    (matchingAccounts accountsTbl t).length ≤ 1 := by
  induction accountsTbl with
  | nil => simp [matchingAccounts]
  | cons a rest ih =>
    simp only [List.map_cons, List.nodup_cons] at h
    obtain ⟨hnot, hrest⟩ := h
    simp only [matchingAccounts, List.filter_cons]
    by_cases hk : (a.current_account_nbr == t.current_account_nbr) = true
    · have hrest0 : (rest.filter (fun b => b.current_account_nbr == t.current_account_nbr)) = [] := by
        apply List.filter_eq_nil_iff.mpr
        intro b hb hbk
        apply hnot
        rw [List.mem_map]
        refine ⟨b, hb, ?_⟩
        have h1 : a.current_account_nbr = t.current_account_nbr := by simpa using hk
        have h2 : b.current_account_nbr = t.current_account_nbr := by simpa using hbk
        omega
      simp [hk, hrest0]
    · simp only [hk, if_false]
      simpa [matchingAccounts] using ih hrest

theorem matchingAccounts_eq_nil_or_singleton {accountsTbl : List AccountRow}
    (h : (accountsTbl.map (fun a => a.current_account_nbr)).Nodup) (t : TxnRow) :
    matchingAccounts accountsTbl t = [] ∨ ∃ a, matchingAccounts accountsTbl t = [a] := by
  have hlen := length_matchingAccounts_le_one h t
  match hm : matchingAccounts accountsTbl t with
  | [] => exact Or.inl rfl
  | [a] => exact Or.inr ⟨a, rfl⟩
  | a :: b :: rest => rw [hm] at hlen; simp at hlen

/-- C5: every transaction row that survives ingestion has its timestamp inside the
closed configured window, and ingestion equals filtering the concatenated raw chunks
by that window, so rows outside the window are discarded. -/
theorem loaded_transactions_within_window (startD endD : Nat) (chunks : List (List TxnRow)) :
    (∀ t ∈ loadTransactions startD endD chunks,
        startD ≤ t.transaction_date ∧ t.transaction_date ≤ endD) ∧
    loadTransactions startD endD chunks
      = (concatTables chunks).filter (inDateWindow startD endD) := by
  refine ⟨fun t ht => ?_, loadTransactions_eq_filter_concat startD endD chunks⟩
  have h := mem_loadTransactions_inWindow ht
  simpa [inDateWindow] using h

/-- Witness for C5 at the notebook window and a concrete June 2024 transaction. -/
theorem loaded_transactions_within_window_witness :
    20240501 ≤ txnDemo.transaction_date ∧ txnDemo.transaction_date ≤ 20250331 :=
  (loaded_transactions_within_window 20240501 20250331 [[txnDemo]]).1 txnDemo (by decide)

/-- C6: the unified transaction table obtained by concatenating the per-source filtered
chunks has exactly their rows: its length is the sum of the filtered lengths and every
row keeps its multiplicity (nothing dropped, duplicated, or merged by key). -/
theorem concat_preserves_all_rows (startD endD : Nat) (chunks : List (List TxnRow)) :
    (loadTransactions startD endD chunks).length
      = (chunks.map (fun c => (filterChunk startD endD c).length)).sum ∧
    ∀ x : TxnRow, (loadTransactions startD endD chunks).count x
      = (chunks.map (fun c => (filterChunk startD endD c).count x)).sum := by
  constructor
  · simp [loadTransactions, concatTables, Function.comp_def]
  · intro x
    simp only [loadTransactions, concatTables]
    induction chunks with
    | nil => simp
    | cons c cs ih => simp [ih]

theorem leftMergeTxnAccounts_cons (t : TxnRow) (ts : List TxnRow)
    (accountsTbl : List AccountRow) :
    leftMergeTxnAccounts (t :: ts) accountsTbl
      = (let ms := matchingAccounts accountsTbl t
         if ms.isEmpty then [⟨t, none⟩] else ms.map (fun a => ⟨t, some a⟩))
        ++ leftMergeTxnAccounts ts accountsTbl := by
  simp [leftMergeTxnAccounts]

/-- C7: when the account key is unique in the account table, the left merge keeps each
transaction row exactly once, in order and with its fields unchanged; a merged row with
no account part has no key match in the account table, and a merged row with an account
part carries a genuine account row with the matching key. -/
theorem left_merge_preserves_rows (txns : List TxnRow) (accountsTbl : List AccountRow)
    (huniq : (accountsTbl.map (fun a => a.current_account_nbr)).Nodup) :
    ((leftMergeTxnAccounts txns accountsTbl).map (fun r => r.txn) = txns) ∧
    ∀ r ∈ leftMergeTxnAccounts txns accountsTbl,
      (r.acct = none → ∀ a ∈ accountsTbl, a.current_account_nbr ≠ r.txn.current_account_nbr) ∧
      (∀ a, r.acct = some a → a ∈ accountsTbl ∧ a.current_account_nbr = r.txn.current_account_nbr) := by
  constructor
  · induction txns with
    | nil => rfl
    | cons t ts ih =>
      rw [leftMergeTxnAccounts_cons, List.map_append, ih]
      rcases matchingAccounts_eq_nil_or_singleton huniq t with hm | ⟨a, hm⟩
      · simp [hm]
      · simp [hm]
  · intro r hr
    simp only [leftMergeTxnAccounts, List.mem_flatMap] at hr
    obtain ⟨t, _, hrt⟩ := hr
    by_cases hempty : (matchingAccounts accountsTbl t).isEmpty = true
    · rw [if_pos hempty] at hrt
      simp only [List.mem_singleton] at hrt
      subst hrt
      have hnil : matchingAccounts accountsTbl t = [] := List.isEmpty_iff.mp hempty
      constructor
      · intro _ a ha hkey
        have : a ∈ matchingAccounts accountsTbl t := by
          simp [matchingAccounts, List.mem_filter, ha, hkey]
        rw [hnil] at this
        simp at this
      · intro a ha
        simp at ha
    · rw [if_neg hempty] at hrt
      simp only [List.mem_map] at hrt
      obtain ⟨a, ha, rfl⟩ := hrt
      have hmem := List.mem_filter.mp ha
      constructor
      · intro hnone
        simp at hnone
      · intro b hb
        simp only [Option.some.injEq] at hb
        subst hb
        exact ⟨hmem.1, by simpa using hmem.2⟩

/-- Witness for C7 on a one-row transaction table and a one-row account table. -/
theorem left_merge_preserves_rows_witness :
    (([acctDemo].map (fun a => a.current_account_nbr)).Nodup) ∧
    (leftMergeTxnAccounts [txnDemo] [acctDemo]).map (fun r => r.txn) = [txnDemo] :=
  ⟨by decide, (left_merge_preserves_rows [txnDemo] [acctDemo] (by decide)).1⟩

/-- Counterexample to C2 as stated: the code's cut leaves a predicted value of 0 with no
tier at all, although 0 is below the low threshold, so "predicted ≤ T1 yields Low" fails. -/
theorem tier_of_zero_prediction_cex :
    spending_tier 0 ≠ some SpendTier.Low ∧ spending_tier 0 = none := by
  decide

/-- C2 (amended): for thresholds 0 < T1 < T2 the cut maps every positive predicted value
to exactly one tier — Low on `(0, T1]`, Medium on `(T1, T2]`, High above `T2` — and the
scenario `[500, 5000, 15000]` with thresholds `(1000, 10000)` yields
`[Low, Medium, High]`; non-positive predicted values receive no tier. -/
theorem tier_assignment_positive_thresholds (t1 t2 x : Rat) (h1 : 0 < t1) (h2 : t1 < t2) :
    (0 < x ∧ x ≤ t1 → cutTier t1 t2 x = some SpendTier.Low) ∧
    (t1 < x ∧ x ≤ t2 → cutTier t1 t2 x = some SpendTier.Medium) ∧
    (t2 < x → cutTier t1 t2 x = some SpendTier.High) ∧
    tierColumn [500, 5000, 15000]
      = [some SpendTier.Low, some SpendTier.Medium, some SpendTier.High] := by
  refine ⟨?_, ?_, ?_, by decide⟩
  · rintro ⟨hx0, hx1⟩
    unfold cutTier
    rw [if_pos ⟨hx0, hx1⟩]
  · rintro ⟨hx1, hx2⟩
    unfold cutTier
    rw [if_neg (by rintro ⟨-, h⟩; linarith), if_pos ⟨hx1, hx2⟩]
  · intro hx
    unfold cutTier
    rw [if_neg (by rintro ⟨-, h⟩; linarith), if_neg (by rintro ⟨-, h⟩; linarith), if_pos hx]

/-- Witness for the amended C2 at thresholds (1000, 10000) and prediction 500. -/
theorem tier_assignment_positive_thresholds_witness :
    (0 : Rat) < 1000 ∧ spending_tier 500 = some SpendTier.Low := by
  refine ⟨by decide, ?_⟩
  exact (tier_assignment_positive_thresholds 1000 10000 500 (by decide) (by decide)).1
    ⟨by decide, by decide⟩

/-- C10: a non-positive predicted value falls outside every bin of the cut, so it is
assigned no tier, and `value_counts` excludes it from every per-tier count. -/
theorem nonpositive_prediction_no_tier (x : Rat) (preds : List Rat) (t : SpendTier)
    (hx : x ≤ 0) :
    spending_tier x = none ∧ tier_counts (x :: preds) t = tier_counts preds t := by
  have hnone : spending_tier x = none := by
    unfold spending_tier cutTier
    rw [if_neg (by rintro ⟨h, -⟩; linarith),
        if_neg (by rintro ⟨h, -⟩; linarith),
        if_neg (by intro h; linarith)]
  refine ⟨hnone, ?_⟩
  simp [tier_counts, tierColumn, hnone]

/-- Witness for C10 at prediction 0 against a remaining column [500]. -/
theorem nonpositive_prediction_no_tier_witness :
    (0 : Rat) ≤ 0 ∧ spending_tier 0 = none ∧
      tier_counts [0, 500] SpendTier.Low = tier_counts [500] SpendTier.Low := by
  have h := nonpositive_prediction_no_tier 0 [500] SpendTier.Low (by decide)
  exact ⟨by decide, h.1, h.2⟩

/-- C3: every account of the risk-feature table that appears in the fraud-case table gets
risk label 1, whatever the values of its behaviour, bureau, utilization, NSF and
delinquency features are. -/
theorem fraud_account_risk_label_one (accountsTbl : List EnrichedAccountRow)
    (fraudCases : List FraudCaseRow) (p : EnrichedAccountRow × Nat)
    (hp : p ∈ riskData accountsTbl fraudCases)
    (hfraud : p.1.current_account_nbr ∈ fraudAccountsOf fraudCases) :
    p.2 = 1 := by
  simp only [riskData, List.mem_map] at hp
  obtain ⟨a, _, rfl⟩ := hp
  simp only [riskLabelOf, fraudAccountsOf]
  by_cases hc : a.current_account_nbr ∈ collectionsAccountsOf accountsTbl
  · simp [hc]
  · simp only [fraudAccountsOf] at hfraud
    simp [hc, hfraud]

/-- Witness for C3: account 7 has a fraud case and arbitrary (missing) features, and its
risk label is 1. -/
theorem fraud_account_risk_label_one_witness :
    (enrichedDemo, 1) ∈ riskData [enrichedDemo] [fraudDemo] ∧
      riskLabelOf (fraudAccountsOf [fraudDemo]) (collectionsAccountsOf [enrichedDemo]) 7 = 1 := by
  constructor
  · decide
  · have h := fraud_account_risk_label_one [enrichedDemo] [fraudDemo]
      (enrichedDemo, riskLabelOf (fraudAccountsOf [fraudDemo])
        (collectionsAccountsOf [enrichedDemo]) enrichedDemo.current_account_nbr)
      (by simp [riskData]) (by decide)
    simpa [enrichedDemo] using h

/-- Counterexample to C4 as stated: account 1 is in the account table and has zero
transactions in the May–Sep feature window, yet the feature table contains no row for
it at all — it is omitted rather than given a spend-0 row. -/
theorem zero_window_account_gets_no_row_cex :
    ¬ ∃ r ∈ featuresDf txnsDemo [acct1Demo], r.current_account_nbr = 1 := by
  decide

/-- C4 (amended): an account with no transaction in the feature window is silently
omitted from the feature table — it gets no row, and no error is raised since the
builder is total; the zero fill applies to the joined credit attributes of accounts
that do get a row, not to absent accounts. -/
theorem zero_window_account_omitted (txns : List TxnRow)
    (accountsTbl : List EnrichedAccountRow) (k : Nat)
    (hk : ∀ t ∈ txns, t.current_account_nbr = k → inDateWindow 20240501 20240930 t = false) :
    ∀ r ∈ featuresDf txns accountsTbl, r.current_account_nbr ≠ k := by
  intro r hr hEq
  simp only [featuresDf, List.mem_map, List.mem_filter] at hr
  obtain ⟨p, ⟨hp, -⟩, rfl⟩ := hr
  have hEq2 : p.1 = k := hEq
  simp only [windowSpendByAccount, List.mem_map, List.mem_dedup, List.mem_filter] at hp
  obtain ⟨k', ⟨t, ⟨ht, hwin⟩, htk⟩, hpk⟩ := hp
  have hp1 : p.1 = k' := by rw [← hpk]
  have hkey : t.current_account_nbr = k := by omega
  simp [hk t ht hkey] at hwin

/-- Witness for the amended C4: on the demo tables account 1 appears in no feature row. -/
theorem zero_window_account_omitted_witness :
    (∀ t ∈ txnsDemo, t.current_account_nbr = 1 → inDateWindow 20240501 20240930 t = false) ∧
    ∀ r ∈ featuresDf txnsDemo [acct1Demo], r.current_account_nbr ≠ 1 :=
  ⟨by decide, zero_window_account_omitted txnsDemo [acct1Demo] 1 (by decide)⟩

/-- C8: the seasonal path has no minimum-length detection and no fallback — for any
monthly series of at most 12 observations (the run's series has 11) the auto-arima call
fails with the data-insufficiency error and the step returns that error, so the run
crashes instead of switching to a non-seasonal model. -/
theorem seasonal_step_errors_on_short_series (xs : List Rat) (h : xs.length ≤ 12) :
    seasonalForecastStep xs = Except.error seasonalErrMsg := by
  have hlen : (seasonalDiff 12 xs).length = 0 := by
    simp only [seasonalDiff, List.length_map, List.length_range]
    omega
  unfold seasonalForecastStep auto_arima
  rw [if_pos hlen]

/-- Witness for C8 on the run's 11-month series. -/
theorem seasonal_step_errors_on_short_series_witness :
    monthlySpendDemo.length ≤ 12 ∧
      seasonalForecastStep monthlySpendDemo = Except.error seasonalErrMsg :=
  ⟨by decide, seasonal_step_errors_on_short_series monthlySpendDemo (by decide)⟩

/-- C9: the pipeline is deterministic — with the estimators seeded by the fixed
`random_state=42`, two runs over identical frozen inputs produce identical feature
tables, tier assignments and risk labels even under different ambient entropy. -/
theorem pipeline_runs_identical (train : Nat → List FeatureRow → (FeatureRow → Rat))
    (inp : PipelineInputs) (entropy1 entropy2 : Nat) :
    runPipeline train inp entropy1 = runPipeline train inp entropy2 := rfl

theorem ramsOrd_of_tied {a b : RamsRow} (hkey : a.cu_account_nbr = b.cu_account_nbr)
    (hdate : a.cu_processing_date = b.cu_processing_date) : ramsOrd a b := by
  unfold ramsOrd
  omega

theorem dropDupKeepFirst_first_occurrence :
    ∀ (l : List RamsRow) (seen : List Nat) (r : RamsRow),
      r ∈ dropDupKeepFirst l seen →
      r.cu_account_nbr ∉ seen ∧
        (l.filter (fun s => s.cu_account_nbr == r.cu_account_nbr)).head? = some r
  | [], seen, r => by simp [dropDupKeepFirst]
  | a :: rest, seen, r => by
    intro hr
    rw [dropDupKeepFirst] at hr
    by_cases ha : a.cu_account_nbr ∈ seen
    · rw [if_pos ha] at hr
      obtain ⟨h1, h2⟩ := dropDupKeepFirst_first_occurrence rest seen r hr
      have hne : (a.cu_account_nbr == r.cu_account_nbr) = false := by
        simp only [beq_eq_false_iff_ne, ne_eq]
        intro hEq
        exact h1 (hEq ▸ ha)
      refine ⟨h1, ?_⟩
      simp only [List.filter_cons, hne]
      exact h2
    · rw [if_neg ha] at hr
      rcases List.mem_cons.mp hr with rfl | hr2
      · refine ⟨ha, ?_⟩
        simp [List.filter_cons]
      · obtain ⟨h1, h2⟩ := dropDupKeepFirst_first_occurrence rest (a.cu_account_nbr :: seen) r hr2
        have hne2 : r.cu_account_nbr ≠ a.cu_account_nbr := fun hEq => h1 (by simp [hEq])
        have hnotseen : r.cu_account_nbr ∉ seen := fun hs => h1 (by simp [hs])
        have hne : (a.cu_account_nbr == r.cu_account_nbr) = false := by
          simp only [beq_eq_false_iff_ne, ne_eq]
          intro hEq
          exact hne2 hEq.symm
        refine ⟨hnotseen, ?_⟩
        simp only [List.filter_cons, hne]
        exact h2

theorem mem_keys_dropDupKeepFirst :
    ∀ (l : List RamsRow) (seen : List Nat) (k : Nat),
      k ∈ (dropDupKeepFirst l seen).map (fun r => r.cu_account_nbr) ↔
        (k ∈ l.map (fun r => r.cu_account_nbr) ∧ k ∉ seen)
  | [], seen, k => by simp [dropDupKeepFirst]
  | a :: rest, seen, k => by
    rw [dropDupKeepFirst]
    by_cases ha : a.cu_account_nbr ∈ seen
    · rw [if_pos ha, mem_keys_dropDupKeepFirst rest seen k]
      simp only [List.map_cons, List.mem_cons]
      constructor
      · rintro ⟨h1, h2⟩
        exact ⟨Or.inr h1, h2⟩
      · rintro ⟨h1 | h1, h2⟩
        · exact absurd (h1 ▸ ha) h2
        · exact ⟨h1, h2⟩
    · rw [if_neg ha]
      simp only [List.map_cons, List.mem_cons,
        mem_keys_dropDupKeepFirst rest (a.cu_account_nbr :: seen) k]
      constructor
      · rintro (h1 | ⟨h1, h2⟩)
        · exact ⟨Or.inl h1, h1 ▸ ha⟩
        · exact ⟨Or.inr h1, fun hs => h2 (Or.inr hs)⟩
      · rintro ⟨h1 | h1, h2⟩
        · exact Or.inl h1
        · by_cases hka : k = a.cu_account_nbr
          · exact Or.inl hka
          · refine Or.inr ⟨h1, fun hs => ?_⟩
            rcases hs with h3 | h3
            · exact hka h3
            · exact h2 h3

theorem nodup_keys_dropDupKeepFirst :
    ∀ (l : List RamsRow) (seen : List Nat),
      ((dropDupKeepFirst l seen).map (fun r => r.cu_account_nbr)).Nodup
  | [], seen => by simp [dropDupKeepFirst]
  | a :: rest, seen => by
    rw [dropDupKeepFirst]
    by_cases ha : a.cu_account_nbr ∈ seen
    · rw [if_pos ha]
      exact nodup_keys_dropDupKeepFirst rest seen
    · rw [if_neg ha]
      simp only [List.map_cons, List.nodup_cons]
      refine ⟨fun hmem => ?_, nodup_keys_dropDupKeepFirst rest (a.cu_account_nbr :: seen)⟩
      have h := (mem_keys_dropDupKeepFirst rest (a.cu_account_nbr :: seen)
        a.cu_account_nbr).mp hmem
      exact h.2 (List.mem_cons_self _ _)

/-- C1: after the snapshot deduplication every account appears exactly once (the key
column is duplicate-free and holds exactly the accounts of the source), every retained
row carries the maximum processing date among its account's source rows, and among
source rows tying at that maximum the retained one is the first in original source
order. -/
theorem rams_dedup_keeps_unique_latest (rs : List RamsRow) :
    (((ramsLatest rs).map (fun r => r.cu_account_nbr)).Nodup ∧
      ∀ k, k ∈ (ramsLatest rs).map (fun r => r.cu_account_nbr) ↔
        k ∈ rs.map (fun r => r.cu_account_nbr)) ∧
    (∀ r ∈ ramsLatest rs, ∀ s ∈ rs, s.cu_account_nbr = r.cu_account_nbr →
      s.cu_processing_date ≤ r.cu_processing_date) ∧
    (∀ r ∈ ramsLatest rs,
      (rs.filter (fun s => s.cu_account_nbr == r.cu_account_nbr &&
        s.cu_processing_date == r.cu_processing_date)).head? = some r) := by
  have hperm : List.Perm (sortRams rs) rs := List.perm_insertionSort ramsOrd rs
  have hsorted : (sortRams rs).Pairwise ramsOrd := List.sorted_insertionSort ramsOrd rs
  refine ⟨⟨nodup_keys_dropDupKeepFirst (sortRams rs) [], fun k => ?_⟩, ?_, ?_⟩
  · rw [ramsLatest, mem_keys_dropDupKeepFirst]
    simp only [List.not_mem_nil, not_false_iff, and_true]
    exact (hperm.map (fun r => r.cu_account_nbr)).mem_iff
  · intro r hr s hs hkey
    obtain ⟨-, hhead⟩ := dropDupKeepFirst_first_occurrence (sortRams rs) [] r hr
    have hsF : s ∈ (sortRams rs).filter (fun x => x.cu_account_nbr == r.cu_account_nbr) :=
      List.mem_filter.mpr ⟨hperm.mem_iff.mpr hs, by simp [hkey]⟩
    have hpwF : ((sortRams rs).filter
        (fun x => x.cu_account_nbr == r.cu_account_nbr)).Pairwise ramsOrd :=
      hsorted.filter _
    cases hF : (sortRams rs).filter (fun x => x.cu_account_nbr == r.cu_account_nbr) with
    | nil =>
      rw [hF] at hsF
      simp at hsF
    | cons f tl =>
      rw [hF] at hhead hsF hpwF
      have hf : f = r := by simpa using hhead
      subst hf
      rcases List.mem_cons.mp hsF with rfl | hstl
      · exact Nat.le_refl _
      · have hord : ramsOrd f s := (List.pairwise_cons.mp hpwF).1 s hstl
        unfold ramsOrd at hord
        omega
  · intro r hr
    obtain ⟨-, hhead⟩ := dropDupKeepFirst_first_occurrence (sortRams rs) [] r hr
    have hGpw : (rs.filter (fun s => s.cu_account_nbr == r.cu_account_nbr &&
        s.cu_processing_date == r.cu_processing_date)).Pairwise ramsOrd := by
      apply List.pairwise_of_forall_mem_list
      intro a haG b hbG
      have haT := (List.mem_filter.mp haG).2
      have hbT := (List.mem_filter.mp hbG).2
      simp only [Bool.and_eq_true, beq_iff_eq] at haT hbT
      exact ramsOrd_of_tied (haT.1.trans hbT.1.symm) (haT.2.trans hbT.2.symm)
    have hstab : List.Sublist (rs.filter (fun s => s.cu_account_nbr == r.cu_account_nbr &&
        s.cu_processing_date == r.cu_processing_date)) (sortRams rs) :=
      List.sublist_insertionSort hGpw (List.filter_sublist rs)
    have hGfix : (rs.filter (fun s => s.cu_account_nbr == r.cu_account_nbr &&
        s.cu_processing_date == r.cu_processing_date)).filter
          (fun s => s.cu_account_nbr == r.cu_account_nbr &&
            s.cu_processing_date == r.cu_processing_date)
        = rs.filter (fun s => s.cu_account_nbr == r.cu_account_nbr &&
            s.cu_processing_date == r.cu_processing_date) :=
      List.filter_eq_self.mpr (fun a ha => (List.mem_filter.mp ha).2)
    have hsubF : List.Sublist (rs.filter (fun s => s.cu_account_nbr == r.cu_account_nbr &&
        s.cu_processing_date == r.cu_processing_date))
        ((sortRams rs).filter (fun s => s.cu_account_nbr == r.cu_account_nbr &&
          s.cu_processing_date == r.cu_processing_date)) := by
      have h := hstab.filter (fun s => s.cu_account_nbr == r.cu_account_nbr &&
        s.cu_processing_date == r.cu_processing_date)
      rwa [hGfix] at h
    have hpermF : List.Perm ((sortRams rs).filter (fun s => s.cu_account_nbr == r.cu_account_nbr &&
        s.cu_processing_date == r.cu_processing_date))
        (rs.filter (fun s => s.cu_account_nbr == r.cu_account_nbr &&
          s.cu_processing_date == r.cu_processing_date)) :=
      hperm.filter _
    have hGeq : rs.filter (fun s => s.cu_account_nbr == r.cu_account_nbr &&
        s.cu_processing_date == r.cu_processing_date)
        = (sortRams rs).filter (fun s => s.cu_account_nbr == r.cu_account_nbr &&
          s.cu_processing_date == r.cu_processing_date) :=
      hsubF.eq_of_length hpermF.length_eq.symm
    have hcomm : (sortRams rs).filter (fun s => s.cu_account_nbr == r.cu_account_nbr &&
        s.cu_processing_date == r.cu_processing_date)
        = ((sortRams rs).filter (fun s => s.cu_account_nbr == r.cu_account_nbr)).filter
          (fun s => s.cu_processing_date == r.cu_processing_date) := by
      rw [List.filter_filter]
      exact List.filter_congr (fun a _ => by rw [Bool.and_comm])
    cases hF : (sortRams rs).filter (fun s => s.cu_account_nbr == r.cu_account_nbr) with
    | nil =>
      rw [hF] at hhead
      simp at hhead
    | cons f tl =>
      rw [hF] at hhead
      have hf : f = r := by simpa using hhead
      subst hf
      rw [hGeq, hcomm, hF]
      simp [List.filter_cons]

/-- Witness for C1 on a concrete snapshot table: the dedup keys are duplicate-free, the
earlier row's date is bounded by the retained row's date, and the retained row is the
first source row at the maximum date. -/
theorem rams_dedup_keeps_unique_latest_witness :
    ((ramsLatest ramsDemo).map (fun r => r.cu_account_nbr)).Nodup ∧
    ramsRowEarly.cu_processing_date ≤ ramsRowLate.cu_processing_date ∧
    (ramsDemo.filter (fun s => s.cu_account_nbr == ramsRowLate.cu_account_nbr &&
      s.cu_processing_date == ramsRowLate.cu_processing_date)).head? = some ramsRowLate := by
  refine ⟨(rams_dedup_keeps_unique_latest ramsDemo).1.1,
    (rams_dedup_keeps_unique_latest ramsDemo).2.1 ramsRowLate ?_ ramsRowEarly ?_ ?_,
    (rams_dedup_keeps_unique_latest ramsDemo).2.2 ramsRowLate ?_⟩ <;> decide

end Datathon
